import Mathlib

/-!
# Verification of webcheck (`src/main.go`)

A shallow embedding of the core of the `webcheck` program: the per-host
resolver/prober `resolveOne` (main.go lines 129-162) and the concurrent
dispatcher `resolveAll` (main.go lines 108-126).

The network is modelled by an environment `Env` giving the outcome of
`net.LookupHost` (success with an address list, or a resolution error) and the
outcome of every `net.DialTimeout` attempt (reachable or not).  Durations are
modelled in seconds as naturals.  `resolveOne` is instrumented to also return
the list of dial attempts it performs, in order, so that claims about which
probes happen (and with which timeout) are statable.

Go iterates a `map` in nondeterministic order; the two `for p := range ports`
loops of `resolveOne` are therefore parameterised by iteration orders `po`
(probe loop, line 140) and `co` (collection loop, line 156), each an arbitrary
permutation of the map's key set `{"80", "443"}`.

The dispatcher is modelled as a small-step transition system: one `send`
transition per goroutine (the channel write at line 118), one `wgDone`
transition per goroutine (line 119), and a `close` transition (line 123)
enabled only when every goroutine has called `wg.Done` — the `wg.Wait`
barrier at line 122.
-/

namespace Webcheck

/-- The network argument of `net.DialTimeout` at main.go line 141. -/
def tcp : String := "tcp"

/-- The separator used to build `a+":"+p` at main.go line 141. -/
def colon : String := ":"

/-- Candidate port `"80"` (main.go line 136). -/
def port80 : String := "80"

/-- Candidate port `"443"` (main.go line 136). -/
def port443 : String := "443"

/-- Key set of the Go map `ports = map[string]bool{"80": false, "443": false}`
(main.go line 136). -/
def candidatePorts : List String := [port80, port443]

/-- One TCP connection attempt: the arguments passed to `net.DialTimeout`
(main.go line 141).  `timeout` is in seconds. -/
structure Attempt where
  network : String
  address : String
  timeout : Nat
deriving DecidableEq

/-- `hostInfo` (main.go lines 24-29).  The resolution error is modelled as a
string message. -/
structure hostInfo where
  name : String
  addrs : List String
  ports : List String
  err : Option String
deriving DecidableEq

/-- The network environment: the outcome of `net.LookupHost` for each hostname,
and the outcome of `net.DialTimeout` for each (network, address, timeout)
triple. -/
structure Env where
  lookupHost : String → Except String (List String)
  dial : String → String → Nat → Bool

/-- Inner loop of `resolveOne` (main.go lines 140-147): for a single resolved
address `a`, iterate the candidate ports in map-iteration order `ps`; for each
port attempt `net.DialTimeout("tcp", a+":"+p, t)`; on success mark the port
open in the map `m` (`ports[p] = true`), on failure `continue`.  Every attempt
is recorded in the returned log. -/
def probeHostPorts (env : Env) (t : Nat) (a : String) :
    List String → (String → Bool) → (String → Bool) × List Attempt
  | [], m => (m, [])
  | p :: ps, m =>
    let addr := a ++ colon ++ p
    let m1 := if env.dial tcp addr t then Function.update m p true else m
    let r := probeHostPorts env t a ps m1
    (r.1, ⟨tcp, addr, t⟩ :: r.2)

/-- Outer loop of `resolveOne` (main.go line 139): iterate the resolved
addresses, threading the `ports` map through the inner loop. -/
def probeAddrs (env : Env) (po : List String) (t : Nat) :
    List String → (String → Bool) → (String → Bool) × List Attempt
  | [], m => (m, [])
  | a :: as, m =>
    let r1 := probeHostPorts env t a po m
    let r2 := probeAddrs env po t as r1.1
    (r2.1, r1.2 ++ r2.2)

/-- `resolveOne` (main.go lines 129-162), instrumented to also return the list
of dial attempts performed.  `po` and `co` are the (nondeterministic) iteration
orders of the Go map `ports` in the probe loop (line 140) and in the
de-duplicating collection loop (line 156); each is some permutation of
`candidatePorts`.  The `ports` map starts with every key mapped to `false`
(line 136) and `timeout = time.Second * 3` (line 137). -/
def resolveOne (env : Env) (po co : List String) (host : String) :
    hostInfo × List Attempt :=
  match env.lookupHost host with
  | .error e => ({ name := host, addrs := [], ports := [], err := some e }, [])
  | .ok addrs =>
    let t := 3
    let r := probeAddrs env po t addrs (fun _ => false)
    ({ name := host, addrs := addrs, ports := co.filter (fun p => r.1 p),
       err := none }, r.2)

/-- State of the dispatcher `resolveAll` (main.go lines 108-126) for `n`
goroutines: `sent` are the goroutines whose channel write (line 118) has
happened, `wgDone` those whose `wg.Done()` (line 119) has happened, `emitted`
the sequence of channel writes so far (the order the consumer observes), and
`closed` whether `close(rc)` (line 123) has happened. -/
structure DState (n : Nat) where
  sent : Finset (Fin n)
  wgDone : Finset (Fin n)
  emitted : List hostInfo
  closed : Bool

/-- Initial dispatcher state: nothing sent, nothing done, channel empty and
open. -/
def DState.init (n : Nat) : DState n := ⟨∅, ∅, [], false⟩

/-- Small-step semantics of the goroutines of `resolveAll` (main.go lines
112-124).  `tc` models the constant `timeout = time.Second * 5` declared at
line 109; it occurs in no rule because the constant is used nowhere in the
function.  `res i` is the `hostInfo` computed by goroutine `i`, i.e.
`resolveOne(hosts[i])`.  Each goroutine first writes its result to the channel
(`send`), then calls `wg.Done()` (`wgDone`); the dispatcher goroutine may run
`close(rc)` only once `wg.Wait()` has returned, i.e. once every goroutine has
called `wg.Done()`. -/
inductive resolveAllStep (tc : Nat) {n : Nat} (res : Fin n → hostInfo) :
    DState n → DState n → Prop
  | send (s : DState n) (i : Fin n) (h : i ∉ s.sent) :
      resolveAllStep tc res s
        ⟨insert i s.sent, s.wgDone, s.emitted ++ [res i], s.closed⟩
  | wgDone (s : DState n) (i : Fin n) (h1 : i ∈ s.sent) (h2 : i ∉ s.wgDone) :
      resolveAllStep tc res s ⟨s.sent, insert i s.wgDone, s.emitted, s.closed⟩
  | close (s : DState n) (h1 : s.wgDone = Finset.univ) (h2 : s.closed = false) :
      resolveAllStep tc res s ⟨s.sent, s.wgDone, s.emitted, true⟩

/-- Reachability of a dispatcher state from the initial state. -/
def resolveAllReach (tc : Nat) {n : Nat} (res : Fin n → hostInfo) (s : DState n) :
    Prop :=
  Relation.ReflTransGen (resolveAllStep tc res) (DState.init n) s

/-- The per-goroutine results of `resolveAll hosts` in environment `env` with
map iteration orders `po`, `co`: goroutine `i` computes `resolveOne hosts[i]`
(main.go line 118). -/
def resolveAllRes (env : Env) (po co : List String) (hosts : List String)
    (i : Fin hosts.length) : hostInfo :=
  (resolveOne env po co (hosts.get i)).1

/-- A sample hostname, for concrete instantiations. -/
def hostA : String := "web.example"

/-- A second sample hostname. -/
def hostB : String := "db.example"

/-- A sample resolved address. -/
def addrOne : String := "10.0.0.1"

/-- A second sample resolved address. -/
def addrTwo : String := "10.0.0.2"

/-- A sample resolution-error message. -/
def noHost : String := "no such host"

/-- A concrete environment in which every DNS lookup fails. -/
def envErr : Env :=
  { lookupHost := fun _ => .error noHost, dial := fun _ _ _ => false }

/-- A concrete environment in which every hostname resolves to two addresses
and only the second address answers, on port 80 only. -/
def envTwoAddrs : Env :=
  { lookupHost := fun _ => .ok [addrOne, addrTwo]
    dial := fun _ ad _ => ad == addrTwo ++ colon ++ port80 }

/-- A concrete environment in which DNS resolution succeeds but returns an
empty address list (the zero-address edge case the spec mentions). -/
def envEmptyOk : Env :=
  { lookupHost := fun _ => .ok [], dial := fun _ _ _ => false }

/-- A sample host list, for concrete instantiations. -/
def hosts₀ : List String := [hostA, hostB]

/-- The fully-finished dispatcher state: every goroutine has sent and called
wg.Done, all results are on the channel, and the channel is closed. -/
def closedState {n : Nat} (res : Fin n → hostInfo) : DState n :=
  ⟨Finset.univ, Finset.univ, (List.finRange n).map res, true⟩

/-- Modelled from the spec (§9, claim C8): the same dispatcher with the unused
5-second constant of main.go line 109 removed — identical rules, no constant
parameter.  This is the comparison point for the refinement claim that the
program behaves identically to the program without the constant. -/
inductive resolveAllStepNoConst {n : Nat} (res : Fin n → hostInfo) :
    DState n → DState n → Prop
  | send (s : DState n) (i : Fin n) (h : i ∉ s.sent) :
      resolveAllStepNoConst res s
        ⟨insert i s.sent, s.wgDone, s.emitted ++ [res i], s.closed⟩
  | wgDone (s : DState n) (i : Fin n) (h1 : i ∈ s.sent) (h2 : i ∉ s.wgDone) :
      resolveAllStepNoConst res s ⟨s.sent, insert i s.wgDone, s.emitted, s.closed⟩
  | close (s : DState n) (h1 : s.wgDone = Finset.univ) (h2 : s.closed = false) :
      resolveAllStepNoConst res s ⟨s.sent, s.wgDone, s.emitted, true⟩

/-- Reachability for the constant-free dispatcher. -/
def resolveAllReachNoConst {n : Nat} (res : Fin n → hostInfo) (s : DState n) :
    Prop :=
  Relation.ReflTransGen (resolveAllStepNoConst res) (DState.init n) s

/-- Dispatcher invariant: every goroutine that called wg.Done has sent first;
the emitted sequence is `res` mapped over some duplicate-free list of
goroutines whose underlying set is `sent`; and the channel is closed only
once every goroutine has called wg.Done. -/
def DInv {n : Nat} (res : Fin n → hostInfo) (s : DState n) : Prop :=
  s.wgDone ⊆ s.sent ∧
  (∃ l : List (Fin n), l.Nodup ∧ l.toFinset = s.sent ∧ s.emitted = l.map res) ∧
  (s.closed = true → s.wgDone = Finset.univ)

/-- The inner loop logs one attempt per port in `ps`, in order, each with the
given timeout, independently of the current state of the `ports` map and of the
dial outcomes. -/
theorem probeHostPorts_snd (env : Env) (t : Nat) (a : String) (ps : List String) :
    ∀ m : String → Bool,
      (probeHostPorts env t a ps m).2 =
        ps.map (fun p => (⟨tcp, a ++ colon ++ p, t⟩ : Attempt)) := by
  induction ps with
  | nil => intro m; rfl
  | cons p ps ih => intro m; simp [probeHostPorts, ih]

/-- After the inner loop, a port is marked in the map iff it already was, or it
occurs in the iterated key order and the dial to it on this address succeeded. -/
theorem probeHostPorts_fst (env : Env) (t : Nat) (a : String) (ps : List String) :
    ∀ (m : String → Bool) (q : String),
      ((probeHostPorts env t a ps m).1 q = true ↔
        m q = true ∨ (q ∈ ps ∧ env.dial tcp (a ++ colon ++ q) t = true)) := by
  induction ps with
  | nil => intro m q; simp [probeHostPorts]
  | cons p ps ih =>
    intro m q
    simp only [probeHostPorts]
    rw [ih]
    by_cases hq : q = p
    · subst hq
      by_cases hd : env.dial tcp (a ++ colon ++ q) t = true
      · simp [hd]
      · simp only [Bool.not_eq_true] at hd
        simp [hd]
    · by_cases hd : env.dial tcp (a ++ colon ++ p) t = true
      · simp only [hd, if_pos]
        rw [Function.update_noteq hq]
        simp only [List.mem_cons]
        constructor
        · rintro (h | ⟨h1, h2⟩)
          · exact Or.inl h
          · exact Or.inr ⟨Or.inr h1, h2⟩
        · rintro (h | ⟨h1 | h1, h2⟩)
          · exact Or.inl h
          · exact absurd h1 hq
          · exact Or.inr ⟨h1, h2⟩
      · simp only [Bool.not_eq_true] at hd
        simp only [hd, Bool.false_eq_true, if_false, List.mem_cons]
        constructor
        · rintro (h | ⟨h1, h2⟩)
          · exact Or.inl h
          · exact Or.inr ⟨Or.inr h1, h2⟩
        · rintro (h | ⟨h1 | h1, h2⟩)
          · exact Or.inl h
          · subst h1; rw [h2] at hd; exact absurd hd (by simp)
          · exact Or.inr ⟨h1, h2⟩

/-- The probe loop logs exactly one attempt per (address, iterated port) pair,
in loop order, independently of the map state and of the dial outcomes. -/
theorem probeAddrs_snd (env : Env) (po : List String) (t : Nat) (as : List String) :
    ∀ m : String → Bool,
      (probeAddrs env po t as m).2 =
        as.flatMap (fun a => po.map (fun p => (⟨tcp, a ++ colon ++ p, t⟩ : Attempt))) := by
  induction as with
  | nil => intro m; rfl
  | cons a as ih => intro m; simp [probeAddrs, ih, probeHostPorts_snd]

/-- After the whole probe loop, a port is marked in the map iff it already was,
or some iterated address answered on it (and the port occurs in the iterated
key order). -/
theorem probeAddrs_fst (env : Env) (po : List String) (t : Nat) (as : List String) :
    ∀ (m : String → Bool) (q : String),
      ((probeAddrs env po t as m).1 q = true ↔
        m q = true ∨ ∃ a ∈ as, q ∈ po ∧ env.dial tcp (a ++ colon ++ q) t = true) := by
  induction as with
  | nil => intro m q; simp [probeAddrs]
  | cons a as ih =>
    intro m q
    simp only [probeAddrs]
    rw [ih, probeHostPorts_fst]
    simp only [List.mem_cons]
    constructor
    · rintro ((h | ⟨h1, h2⟩) | ⟨b, hb, h1, h2⟩)
      · exact Or.inl h
      · exact Or.inr ⟨a, Or.inl rfl, h1, h2⟩
      · exact Or.inr ⟨b, Or.inr hb, h1, h2⟩
    · rintro (h | ⟨b, hb | hb, h1, h2⟩)
      · exact Or.inl (Or.inl h)
      · subst hb; exact Or.inl (Or.inr ⟨h1, h2⟩)
      · exact Or.inr ⟨b, hb, h1, h2⟩

/-- `resolveOne` reports the queried hostname unchanged (`hi := &hostInfo{name:
host}`, main.go line 130). -/
theorem resolveOne_name (env : Env) (po co : List String) (host : String) :
    (resolveOne env po co host).1.name = host := by
  unfold resolveOne
  cases env.lookupHost host <;> rfl

/-- The candidate-port key set has no duplicate keys. -/
theorem candidatePorts_nodup : candidatePorts.Nodup := by decide

/-- Claim C3: for every hostname whose DNS resolution fails, `resolveOne`
returns a result with empty addresses, empty openPorts and a non-null error,
and no port probe (TCP dial) is ever attempted for that host (the attempt log
is empty). -/
theorem resolveOne_dns_failure (env : Env) (po co : List String) (host e : String)
    (h : env.lookupHost host = .error e) :
    (resolveOne env po co host).1.addrs = [] ∧
    (resolveOne env po co host).1.ports = [] ∧
    (resolveOne env po co host).1.err = some e ∧
    (resolveOne env po co host).2 = [] := by
  simp [resolveOne, h]

/-- Witness for C3: in `envErr`, resolving `hostA` fails, and the result has
empty addresses, empty ports, the error set, and an empty attempt log. -/
theorem resolveOne_dns_failure_witness :
    envErr.lookupHost hostA = .error noHost ∧
    ((resolveOne envErr candidatePorts candidatePorts hostA).1.addrs = [] ∧
     (resolveOne envErr candidatePorts candidatePorts hostA).1.ports = [] ∧
     (resolveOne envErr candidatePorts candidatePorts hostA).1.err = some noHost ∧
     (resolveOne envErr candidatePorts candidatePorts hostA).2 = []) :=
  ⟨rfl, resolveOne_dns_failure envErr candidatePorts candidatePorts hostA noHost rfl⟩

/-- Claim C7: the error field of a `resolveOne` result is exactly the DNS
resolution error; probe failures never populate it (it does not depend on the
dial outcomes at all) and it is non-null only for a resolution failure. -/
theorem resolveOne_err_eq_lookup_error (env : Env) (po co : List String)
    (host : String) :
    (resolveOne env po co host).1.err =
      (match env.lookupHost host with
       | .ok _ => none
       | .error e => some e) := by
  unfold resolveOne
  cases env.lookupHost host <;> rfl

/-- Claim C9: every TCP connection attempt made by `resolveOne` is invoked
with a per-attempt timeout of exactly 3 (seconds), `timeout = time.Second * 3`
at main.go line 137. -/
theorem resolveOne_attempts_timeout_three (env : Env) (po co : List String)
    (host : String) :
    ∀ att ∈ (resolveOne env po co host).2, att.timeout = 3 := by
  intro att hatt
  cases h : env.lookupHost host with
  | error e => simp [resolveOne, h] at hatt
  | ok addrs =>
    simp only [resolveOne, h] at hatt
    rw [probeAddrs_snd] at hatt
    simp only [List.mem_flatMap, List.mem_map] at hatt
    obtain ⟨a, _, p, _, rfl⟩ := hatt
    rfl

/-- Witness for C9: a concrete attempt from the log of a `resolveOne` run in
`envTwoAddrs`, whose timeout is 3. -/
theorem resolveOne_attempts_timeout_three_witness :
    (⟨tcp, addrOne ++ colon ++ port80, 3⟩ : Attempt) ∈
      (resolveOne envTwoAddrs candidatePorts candidatePorts hostA).2 ∧
    (⟨tcp, addrOne ++ colon ++ port80, 3⟩ : Attempt).timeout = 3 :=
  ⟨by decide,
   resolveOne_attempts_timeout_three envTwoAddrs candidatePorts candidatePorts
     hostA ⟨tcp, addrOne ++ colon ++ port80, 3⟩ (by decide)⟩

/-- Claim C4: for a host whose resolution succeeds, a candidate port is in the
result's openPorts iff at least one resolved address answered on it, and it
appears exactly once, however many addresses were tried or answered. -/
theorem resolveOne_port_open_iff (env : Env) (po co : List String) (host : String)
    (addrs : List String) (hok : env.lookupHost host = .ok addrs)
    (hpo : po.Perm candidatePorts) (hco : co.Perm candidatePorts) :
    ∀ p ∈ candidatePorts,
      (p ∈ (resolveOne env po co host).1.ports ↔
        ∃ a ∈ addrs, env.dial tcp (a ++ colon ++ p) 3 = true) ∧
      (p ∈ (resolveOne env po co host).1.ports →
        (resolveOne env po co host).1.ports.count p = 1) := by
  intro p hp
  have hports : (resolveOne env po co host).1.ports =
      co.filter (fun q => (probeAddrs env po 3 addrs (fun _ => false)).1 q) := by
    simp [resolveOne, hok]
  constructor
  · rw [hports, List.mem_filter]
    rw [probeAddrs_fst]
    simp only [Bool.false_eq_true, false_or]
    constructor
    · rintro ⟨-, a, ha, -, hd⟩
      exact ⟨a, ha, hd⟩
    · rintro ⟨a, ha, hd⟩
      exact ⟨hco.mem_iff.mpr hp, a, ha, hpo.mem_iff.mpr hp, hd⟩
  · intro hmem
    rw [hports] at hmem ⊢
    exact List.count_eq_one_of_mem
      (List.Nodup.filter _ (hco.nodup_iff.mpr candidatePorts_nodup)) hmem

/-- Witness for C4: concrete run of `resolveOne` in `envTwoAddrs`, where only
the second address answers on port 80; port 80 is in the result with count 1,
port 443 is not. -/
theorem resolveOne_port_open_iff_witness :
    envTwoAddrs.lookupHost hostA = .ok [addrOne, addrTwo] ∧
    candidatePorts.Perm candidatePorts ∧
    (∀ p ∈ candidatePorts,
      (p ∈ (resolveOne envTwoAddrs candidatePorts candidatePorts hostA).1.ports ↔
        ∃ a ∈ [addrOne, addrTwo],
          envTwoAddrs.dial tcp (a ++ colon ++ p) 3 = true) ∧
      (p ∈ (resolveOne envTwoAddrs candidatePorts candidatePorts hostA).1.ports →
        (resolveOne envTwoAddrs candidatePorts candidatePorts hostA).1.ports.count p
          = 1)) :=
  ⟨rfl, List.Perm.refl _,
   resolveOne_port_open_iff envTwoAddrs candidatePorts candidatePorts hostA
     [addrOne, addrTwo] rfl (List.Perm.refl _) (List.Perm.refl _)⟩

/-- Counterexample to claim C5 as stated: in an environment in which DNS
resolution succeeds with an empty address list (the edge case the claim
includes), the result has empty addresses and a null error, so "addresses
non-empty iff error null" fails. -/
theorem resolveOne_addrs_iff_err_cex :
    ¬ ((resolveOne envEmptyOk candidatePorts candidatePorts hostA).1.addrs ≠ [] ↔
       (resolveOne envEmptyOk candidatePorts candidatePorts hostA).1.err = none) := by
  decide

/-- Claim C5, amended: if every successful resolution in the environment
returns at least one address, then a `resolveOne` result's addresses are
non-empty iff its error is null.  (In the zero-address success edge case the
code instead yields empty addresses together with a null error.) -/
theorem resolveOne_addrs_nonempty_iff_err_none (env : Env) (po co : List String)
    (host : String) (henv : ∀ as, env.lookupHost host = .ok as → as ≠ []) :
    ((resolveOne env po co host).1.addrs ≠ [] ↔
      (resolveOne env po co host).1.err = none) := by
  cases h : env.lookupHost host with
  | error e => simp [resolveOne, h]
  | ok as =>
    simp only [resolveOne, h, ne_eq]
    simpa using henv as h

/-- Witness for amended C5: in `envTwoAddrs` every successful lookup is
non-empty, and the equivalence holds at `hostA`. -/
theorem resolveOne_addrs_nonempty_iff_err_none_witness :
    (∀ as, envTwoAddrs.lookupHost hostA = .ok as → as ≠ []) ∧
    ((resolveOne envTwoAddrs candidatePorts candidatePorts hostA).1.addrs ≠ [] ↔
      (resolveOne envTwoAddrs candidatePorts candidatePorts hostA).1.err = none) := by
  have henv : ∀ as, envTwoAddrs.lookupHost hostA = .ok as → as ≠ [] := by
    intro as h
    cases h
    decide
  exact ⟨henv,
    resolveOne_addrs_nonempty_iff_err_none envTwoAddrs candidatePorts
      candidatePorts hostA henv⟩

/-- Claim C6: the openPorts of every `resolveOne` result form a subset of the
fixed candidate set (the key set of the `ports` map) and contain no
duplicates. -/
theorem resolveOne_ports_subset_nodup (env : Env) (po co : List String)
    (host : String) (hco : co.Perm candidatePorts) :
    (∀ p ∈ (resolveOne env po co host).1.ports, p ∈ candidatePorts) ∧
    (resolveOne env po co host).1.ports.Nodup := by
  cases h : env.lookupHost host with
  | error e =>
    simp [resolveOne, h]
  | ok addrs =>
    have hports : (resolveOne env po co host).1.ports =
        co.filter (fun q => (probeAddrs env po 3 addrs (fun _ => false)).1 q) := by
      simp [resolveOne, h]
    rw [hports]
    constructor
    · intro p hp
      exact hco.mem_iff.mp (List.mem_of_mem_filter hp)
    · exact List.Nodup.filter _ (hco.nodup_iff.mpr candidatePorts_nodup)

/-- Witness for C6: concrete run in `envTwoAddrs`; the resulting ports list is
a duplicate-free subset of the candidate set. -/
theorem resolveOne_ports_subset_nodup_witness :
    candidatePorts.Perm candidatePorts ∧
    ((∀ p ∈ (resolveOne envTwoAddrs candidatePorts candidatePorts hostA).1.ports,
        p ∈ candidatePorts) ∧
     (resolveOne envTwoAddrs candidatePorts candidatePorts hostA).1.ports.Nodup) :=
  ⟨List.Perm.refl _,
   resolveOne_ports_subset_nodup envTwoAddrs candidatePorts candidatePorts hostA
     (List.Perm.refl _)⟩

/-- Claim C10: for a host resolving to `k` addresses, `resolveOne` attempts a
TCP connection for every one of the `k * 2` (address, candidate-port) pairs —
the log is exactly the loop-order enumeration of all pairs, which does not
mention the dial outcomes, so there is no early exit: a port already confirmed
open is still probed on every remaining address. -/
theorem resolveOne_probes_all_pairs (env : Env) (po co : List String)
    (host : String) (addrs : List String)
    (hok : env.lookupHost host = .ok addrs) (hpo : po.Perm candidatePorts) :
    (resolveOne env po co host).2 =
      addrs.flatMap (fun a => po.map (fun p => (⟨tcp, a ++ colon ++ p, 3⟩ : Attempt))) ∧
    (resolveOne env po co host).2.length = addrs.length * 2 ∧
    ∀ a ∈ addrs, ∀ p ∈ candidatePorts,
      (⟨tcp, a ++ colon ++ p, 3⟩ : Attempt) ∈ (resolveOne env po co host).2 := by
  have hlog : (resolveOne env po co host).2 =
      addrs.flatMap (fun a => po.map (fun p => (⟨tcp, a ++ colon ++ p, 3⟩ : Attempt))) := by
    simp only [resolveOne, hok]
    exact probeAddrs_snd env po 3 addrs (fun _ => false)
  have hpolen : po.length = 2 := hpo.length_eq
  refine ⟨hlog, ?_, ?_⟩
  · rw [hlog]
    clear hlog hok
    induction addrs with
    | nil => rfl
    | cons a as ih =>
      simp only [List.flatMap_cons, List.length_append, List.length_map, hpolen,
        List.length_cons]
      rw [ih]
      ring
  · intro a ha p hp
    rw [hlog]
    rw [List.mem_flatMap]
    exact ⟨a, ha, List.mem_map.mpr ⟨p, hpo.mem_iff.mpr hp, rfl⟩⟩

/-- Witness for C10: concrete run in `envTwoAddrs` with two resolved
addresses; the log is the full 2 × 2 enumeration. -/
theorem resolveOne_probes_all_pairs_witness :
    envTwoAddrs.lookupHost hostA = .ok [addrOne, addrTwo] ∧
    candidatePorts.Perm candidatePorts ∧
    ((resolveOne envTwoAddrs candidatePorts candidatePorts hostA).2 =
      [addrOne, addrTwo].flatMap
        (fun a => candidatePorts.map
          (fun p => (⟨tcp, a ++ colon ++ p, 3⟩ : Attempt))) ∧
     (resolveOne envTwoAddrs candidatePorts candidatePorts hostA).2.length =
       [addrOne, addrTwo].length * 2 ∧
     ∀ a ∈ [addrOne, addrTwo], ∀ p ∈ candidatePorts,
       (⟨tcp, a ++ colon ++ p, 3⟩ : Attempt) ∈
         (resolveOne envTwoAddrs candidatePorts candidatePorts hostA).2) :=
  ⟨rfl, List.Perm.refl _,
   resolveOne_probes_all_pairs envTwoAddrs candidatePorts candidatePorts hostA
     [addrOne, addrTwo] rfl (List.Perm.refl _)⟩

/-- The initial dispatcher state satisfies the invariant. -/
theorem DInv_init {n : Nat} (res : Fin n → hostInfo) : DInv res (DState.init n) := by
  refine ⟨Finset.Subset.refl _, ⟨[], List.nodup_nil, rfl, rfl⟩, ?_⟩
  intro h
  simp [DState.init] at h

/-- Every dispatcher step preserves the invariant. -/
theorem DInv_step {tc n : Nat} {res : Fin n → hostInfo} {s s' : DState n}
    (h : resolveAllStep tc res s s') (hs : DInv res s) : DInv res s' := by
  obtain ⟨hsub, ⟨l, hnd, hset, hemit⟩, hcl⟩ := hs
  cases h with
  | send i hi =>
    refine ⟨hsub.trans (Finset.subset_insert i s.sent), ⟨l ++ [i], ?_, ?_, ?_⟩, hcl⟩
    · refine List.Nodup.append hnd (List.nodup_singleton i) ?_
      intro a ha hb
      rw [List.mem_singleton] at hb
      subst hb
      exact hi (hset ▸ List.mem_toFinset.mpr ha)
    · rw [List.toFinset_append, hset]
      simp [Finset.union_comm, Finset.insert_eq]
    · simp [hemit]
  | wgDone i h1 h2 =>
    refine ⟨Finset.insert_subset h1 hsub, ⟨l, hnd, hset, hemit⟩, ?_⟩
    intro hc
    rw [hcl hc]
    simp
  | close h1 h2 =>
    exact ⟨hsub, ⟨l, hnd, hset, hemit⟩, fun _ => h1⟩

/-- The invariant holds in every reachable dispatcher state. -/
theorem DInv_reach {tc n : Nat} {res : Fin n → hostInfo} {s : DState n}
    (h : resolveAllReach tc res s) : DInv res s := by
  induction h with
  | refl => exact DInv_init res
  | tail _ hstep ih => exact DInv_step hstep ih

/-- From the initial state the dispatcher can, for each goroutine of a
duplicate-free list in turn, perform its channel write followed by its
wg.Done. -/
theorem reach_sends (tc : Nat) {n : Nat} (res : Fin n → hostInfo) :
    ∀ l : List (Fin n), l.Nodup →
      resolveAllReach tc res ⟨l.toFinset, l.toFinset, l.map res, false⟩ := by
  intro l
  induction l using List.reverseRecOn with
  | nil =>
    intro _
    exact Relation.ReflTransGen.refl
  | append_singleton l i ih =>
    intro hnd
    rw [List.nodup_append] at hnd
    obtain ⟨hl, -, hdisj⟩ := hnd
    have hi : i ∉ l := fun hmem => hdisj hmem (List.mem_singleton_self i)
    have hi' : i ∉ l.toFinset := fun hmem => hi (List.mem_toFinset.mp hmem)
    have step1 := @resolveAllStep.send tc n res
      ⟨l.toFinset, l.toFinset, l.map res, false⟩ i hi'
    have step2 := @resolveAllStep.wgDone tc n res
      ⟨insert i l.toFinset, l.toFinset, l.map res ++ [res i], false⟩ i
      (Finset.mem_insert_self i _) hi'
    have hreach := ((ih hl).tail step1).tail step2
    have hfin : (l ++ [i]).toFinset = insert i l.toFinset := by
      rw [List.toFinset_append]
      simp [Finset.union_comm, Finset.insert_eq]
    simpa [hfin] using hreach

/-- The dispatcher can always run to the fully-finished closed state. -/
theorem reach_closed (tc : Nat) {n : Nat} (res : Fin n → hostInfo) :
    resolveAllReach tc res (closedState res) := by
  have h := reach_sends tc res (List.finRange n) (List.nodup_finRange n)
  rw [List.toFinset_finRange] at h
  exact h.tail (resolveAllStep.close _ rfl rfl)

/-- Claim C1: for every non-empty input list of N hostnames, whenever the
channel has been closed, exactly N results were emitted, their names are a
permutation of the requested hostnames (so for duplicate-free input each
result is for a distinct requested hostname), and such a closed state is
reachable — the stream terminates. -/
theorem resolveAll_emits_one_result_per_host (env : Env) (po co : List String)
    (tc : Nat) (hosts : List String) (hne : hosts ≠ []) :
    (∀ s : DState hosts.length,
        resolveAllReach tc (resolveAllRes env po co hosts) s → s.closed = true →
          s.emitted.length = hosts.length ∧
          (s.emitted.map hostInfo.name).Perm hosts ∧
          (hosts.Nodup → (s.emitted.map hostInfo.name).Nodup)) ∧
    (∃ s : DState hosts.length,
        resolveAllReach tc (resolveAllRes env po co hosts) s ∧ s.closed = true) := by
  constructor
  · intro s hreach hcl
    obtain ⟨hsub, ⟨l, hnd, hset, hemit⟩, hclinv⟩ := DInv_reach hreach
    have hsent : s.sent = Finset.univ :=
      Finset.univ_subset_iff.mp (hclinv hcl ▸ hsub)
    have hlperm : l.Perm (List.finRange hosts.length) :=
      List.perm_of_nodup_nodup_toFinset_eq hnd (List.nodup_finRange _)
        (by rw [hset, hsent, List.toFinset_finRange])
    have hnames : s.emitted.map hostInfo.name = l.map hosts.get := by
      rw [hemit, List.map_map]
      refine List.map_congr_left ?_
      intro i _
      exact resolveOne_name env po co (hosts.get i)
    have hperm : (s.emitted.map hostInfo.name).Perm hosts := by
      rw [hnames]
      have h := hlperm.map hosts.get
      rwa [List.finRange_map_get] at h
    have hlen : s.emitted.length = hosts.length := by
      rw [hemit, List.length_map, hlperm.length_eq, List.length_finRange]
    exact ⟨hlen, hperm, fun hnd' => hperm.symm.nodup hnd'⟩
  · exact ⟨closedState _, reach_closed tc _, rfl⟩

/-- Witness for C1: the two-host list `hosts₀` in `envTwoAddrs`. -/
theorem resolveAll_emits_one_result_per_host_witness :
    hosts₀ ≠ [] ∧
    ((∀ s : DState hosts₀.length,
        resolveAllReach 5
            (resolveAllRes envTwoAddrs candidatePorts candidatePorts hosts₀) s →
          s.closed = true →
          s.emitted.length = hosts₀.length ∧
          (s.emitted.map hostInfo.name).Perm hosts₀ ∧
          (hosts₀.Nodup → (s.emitted.map hostInfo.name).Nodup)) ∧
     (∃ s : DState hosts₀.length,
        resolveAllReach 5
            (resolveAllRes envTwoAddrs candidatePorts candidatePorts hosts₀) s ∧
          s.closed = true)) :=
  ⟨by decide,
   resolveAll_emits_one_result_per_host envTwoAddrs candidatePorts candidatePorts
     5 hosts₀ (by decide)⟩

/-- Claim C2: the channel close can be observed only after every per-host
goroutine's write: in every reachable closed dispatcher state, every goroutine
has sent, and each goroutine's result occurs among the emitted channel
writes. -/
theorem resolveAll_close_only_after_all_writes (tc : Nat) {n : Nat}
    (res : Fin n → hostInfo) (s : DState n)
    (hreach : resolveAllReach tc res s) (hcl : s.closed = true) :
    s.sent = Finset.univ ∧ ∀ i : Fin n, res i ∈ s.emitted := by
  obtain ⟨hsub, ⟨l, hnd, hset, hemit⟩, hclinv⟩ := DInv_reach hreach
  have hsent : s.sent = Finset.univ :=
    Finset.univ_subset_iff.mp (hclinv hcl ▸ hsub)
  refine ⟨hsent, fun i => ?_⟩
  have hi : i ∈ l := by
    rw [← List.mem_toFinset, hset, hsent]
    exact Finset.mem_univ i
  rw [hemit]
  exact List.mem_map.mpr ⟨i, hi, rfl⟩

/-- Witness for C2: the reachable closed state for `hosts₀` in `envTwoAddrs`. -/
theorem resolveAll_close_only_after_all_writes_witness :
    resolveAllReach 5 (resolveAllRes envTwoAddrs candidatePorts candidatePorts hosts₀)
      (closedState (resolveAllRes envTwoAddrs candidatePorts candidatePorts hosts₀)) ∧
    (closedState (resolveAllRes envTwoAddrs candidatePorts candidatePorts hosts₀)).closed
      = true ∧
    ((closedState (resolveAllRes envTwoAddrs candidatePorts candidatePorts hosts₀)).sent
        = Finset.univ ∧
     ∀ i : Fin hosts₀.length,
       resolveAllRes envTwoAddrs candidatePorts candidatePorts hosts₀ i ∈
         (closedState (resolveAllRes envTwoAddrs candidatePorts candidatePorts hosts₀)).emitted) :=
  ⟨reach_closed 5 _, rfl,
   resolveAll_close_only_after_all_writes 5
     (resolveAllRes envTwoAddrs candidatePorts candidatePorts hosts₀) _
     (reach_closed 5 _) rfl⟩

/-- Claim C8: the 5-second constant declared in `resolveAll` (main.go line
109) is applied to nothing: for every value of the constant the dispatcher's
step and reachability relations coincide with those of the program with the
constant removed (`resolveAllStepNoConst`); the DNS lookup is bounded by
nothing in the program — its outcome is exactly the environment's. -/
theorem resolveAll_timeout_const_unused {n : Nat} (res : Fin n → hostInfo)
    (tc : Nat) :
    (∀ s s' : DState n,
        resolveAllStep tc res s s' ↔ resolveAllStepNoConst res s s') ∧
    (∀ s : DState n, resolveAllReach tc res s ↔ resolveAllReachNoConst res s) := by
  have fwd : ∀ s s' : DState n,
      resolveAllStep tc res s s' → resolveAllStepNoConst res s s' := by
    intro s s' h
    cases h with
    | send i hi => exact resolveAllStepNoConst.send s i hi
    | wgDone i h1 h2 => exact resolveAllStepNoConst.wgDone s i h1 h2
    | close h1 h2 => exact resolveAllStepNoConst.close s h1 h2
  have bwd : ∀ s s' : DState n,
      resolveAllStepNoConst res s s' → resolveAllStep tc res s s' := by
    intro s s' h
    cases h with
    | send i hi => exact resolveAllStep.send s i hi
    | wgDone i h1 h2 => exact resolveAllStep.wgDone s i h1 h2
    | close h1 h2 => exact resolveAllStep.close s h1 h2
  refine ⟨fun s s' => ⟨fwd s s', bwd s s'⟩, fun s => ⟨?_, ?_⟩⟩
  · intro h
    exact Relation.ReflTransGen.mono fwd h
  · intro h
    exact Relation.ReflTransGen.mono bwd h

end Webcheck
